import Mathlib

/-!
Verification of the Canvas discussion-engagement aggregation core
(`canvas_discussions_engagement.py`, class `CanvasDiscussions`).

The HTTP layer is modelled as an oracle: a list of responses consumed in
order, one per `requests.get` call.  Each response carries its status code,
the parse result of its JSON body (`none` models `JSONDecodeError`, and for
the enrollments endpoint also the `isinstance` shape-check failure, since
the code returns the same empty result for both), and the next-page URL as
already extracted by `get_next_page_url` from the `Link` header (`""` means
no next page, matching the falsy check `while page_url:`).  The fixed
`time.sleep(retry_delay)` between retries is a real-time side effect with no
bearing on the returned data and is not modelled.
-/

/-- Identifiers as the Python code handles them: the JSON integer when the
field is present, and the literal string `'Unknown'` (from
`.get('id', 'Unknown')`) when it is absent.  The two kinds never compare
equal, exactly as a Python `int` never equals the string `'Unknown'`. -/
inductive Ident where
  | mk (n : Nat)
  | unknown
deriving DecidableEq, Repr

/-- `identOfOpt` is the effect of `.get('id', 'Unknown')` on a maybe-present
integer id field. -/
def identOfOpt : Option Nat → Ident
  | some n => .mk n
  | none => .unknown

/-- The nested `user` object of a raw enrollment record: both fields may be
absent. -/
structure UserRec where
  id : Option Nat
  sortable_name : Option String
deriving DecidableEq, Repr

/-- A raw enrollment record as read from one page of the enrollments
listing: its `type` field and its nested `user` object (either may be
absent; a missing `user` is defaulted to `{}` by `.get('user', {})`). -/
structure EnrollRecord where
  type? : Option String
  user : Option UserRec
deriving DecidableEq, Repr

/-- An enrollee as built by `get_enrollees`: the tuple
`(user id or 'Unknown', stripped sortable name or 'Unknown')`. -/
abbrev Enrollee := Ident × String

/-- Python's `str.strip()`: remove leading and trailing whitespace.
(Executable model of `String.trim`, whose `Substring` helpers do not reduce
in the kernel.) -/
def pyStrip (s : String) : String :=
  ⟨((s.data.dropWhile Char.isWhitespace).reverse.dropWhile Char.isWhitespace).reverse⟩

/-- The per-record extraction in `get_enrollees`:
`(enrollment.get('user', {}).get('id', 'Unknown'),
  enrollment.get('user', {}).get('sortable_name', 'Unknown').strip())`. -/
def extractEnrollee (r : EnrollRecord) : Enrollee :=
  let u := r.user.getD ⟨none, none⟩
  (identOfOpt u.id, pyStrip (u.sortable_name.getD "Unknown"))

/-- One page's contribution in `get_enrollees`: keep the records whose
`type` equals the queried enrollment type, then extract `(id, name)`. -/
def enrolleesFromPage (etype : String) (data : List EnrollRecord) : List Enrollee :=
  (data.filter (fun r => decide (r.type? = some etype))).map extractEnrollee

/-- One response of the enrollments listing endpoint.  `body = none` models
both a `JSONDecodeError` and a body that fails the
`isinstance(data, list) and all(isinstance(e, dict))` shape check (the code
returns `[]` in both cases).  `next` is the next-page URL produced by
`get_next_page_url` (`""` when there is none). -/
structure EnrollResp where
  status : Nat
  body : Option (List EnrollRecord)
  next : String
deriving DecidableEq, Repr

/-- Result of `get_enrollees`.  `starved` is a modelling artifact: the
response oracle ran out while the code would have issued another request. -/
inductive EnrollResult where
  | out (enrollees : List Enrollee)
  | starved
deriving DecidableEq, Repr

/-- `max_retries = 3` in `get_enrollees`. -/
def maxRetries : Nat := 3

/-- The nested `while page_url: / for attempt in range(max_retries):` loop
of `get_enrollees`.  `attempts` counts the fetches still allowed on the
current page (reset to `maxRetries` on every new page).  Branches, in the
order of the source: HTTP 200 with a malformed body returns `[]`; HTTP 200
with a good body accumulates the page and follows the next link (breaking
the retry loop); 401/403 and 404 return `[]` immediately; 500 retries until
the attempts are exhausted, after which the post-loop
`if response.status_code != 200: return []` fires; any other status returns
`[]` immediately. -/
def getEnrolleesGo (etype : String) : List EnrollResp → Nat → List Enrollee → EnrollResult
  | [], _, _ => .starved
  | r :: rest, attempts, acc =>
    if r.status = 200 then
      match r.body with
      | none => .out []
      | some data =>
        let acc' := acc ++ enrolleesFromPage etype data
        if r.next = "" then .out acc' else getEnrolleesGo etype rest maxRetries acc'
    else if r.status = 401 ∨ r.status = 403 then .out []
    else if r.status = 404 then .out []
    else if r.status = 500 then
      if attempts ≤ 1 then .out [] else getEnrolleesGo etype rest (attempts - 1) acc
    else .out []

/-- `get_enrollees(course_id)`, over the response oracle. -/
def get_enrollees (etype : String) (oracle : List EnrollResp) : EnrollResult :=
  getEnrolleesGo etype oracle maxRetries []

/-- A raw discussion topic as read from one page of the topic listing.
`last_reply_at = none` models the key being absent (so
`.get('last_reply_at', '1900-01-01T00:00:00Z')` substitutes the sentinel),
`some none` models an explicit JSON `null` (stored as Python `None` and
substituted only in the sort key), and `some (some s)` a timestamp
string. -/
structure TopicRec where
  published : Option Bool
  title : Option String
  id : Option Nat
  last_reply_at : Option (Option String)
deriving DecidableEq, Repr

/-- The sentinel timestamp `'1900-01-01T00:00:00Z'`. -/
def sentinel : String := "1900-01-01T00:00:00Z"

/-- One element of the `discussions` list:
`(topic_posted_date, topic_id, topic_title)`. -/
abbrev Entry := Option String × Ident × String

/-- The body of the `for topic in discussion_topics:` loop in
`get_course_discussion_data`: unpublished topics are dropped, the remaining
fields are read with their defaults. -/
def topicEntry (t : TopicRec) : Option Entry :=
  if t.published.getD false then
    some (match t.last_reply_at with
          | none => some sentinel
          | some v => v,
          identOfOpt t.id, t.title.getD "Unknown Title")
  else none

/-- One response of the discussion-topics listing endpoint (`body = none`
models a `JSONDecodeError`; `next` as in `EnrollResp`). -/
structure TopicResp where
  status : Nat
  body : Option (List TopicRec)
  next : String
deriving DecidableEq, Repr

/-- Outcome of the topic-gathering `while page_url:` loop of
`get_course_discussion_data`.  `aborted` is the `return {}, []` taken on a
parse failure; `done ds` means the loop fell through with `discussions =
ds` (which happens both on running out of pages and on a non-200 response,
which merely sets `page_url = None`); `starved` is the oracle-exhaustion
artifact. -/
inductive TopicsPhase where
  | aborted
  | done (ds : List Entry)
  | starved
deriving DecidableEq, Repr

/-- The topic-gathering loop of `get_course_discussion_data` (lines
351-375): on 200, parse and accumulate the page's published topics and
follow the next link; on a parse failure, `return {}, []`; on any other
status, print and stop paginating, keeping what was accumulated. -/
def listTopicsGo : List TopicResp → List Entry → TopicsPhase
  | [], _ => .starved
  | r :: rest, acc =>
    if r.status = 200 then
      match r.body with
      | none => .aborted
      | some topics =>
        let acc' := acc ++ topics.filterMap topicEntry
        if r.next = "" then .done acc' else listTopicsGo rest acc'
    else .done acc

/-- Python's `<` on strings: lexicographic comparison of the code-point
sequences.  (Stated on `String.data` because the `String` order instances
in the library are iterator-based and do not reduce in the kernel; the
orders agree.) -/
def pyLT (a b : String) : Prop := a.data < b.data

/-- Python's `<=` on strings. -/
def pyLE (a b : String) : Prop := a.data ≤ b.data

instance : DecidableRel pyLT := fun a b => inferInstanceAs (Decidable (a.data < b.data))

instance : DecidableRel pyLE := fun a b => inferInstanceAs (Decidable (a.data ≤ b.data))

/-- Sort key of `discussions.sort(key=lambda x: x[0] if x[0] is not None
else '1900-01-01T00:00:00Z')`. -/
def sortKey (e : Entry) : String := e.1.getD sentinel

/-- The (non-strict) comparison the sort orders by. -/
def keyLE (a b : Entry) : Prop := pyLE (sortKey a) (sortKey b)

instance : DecidableRel keyLE := fun a b => inferInstanceAs (Decidable (pyLE (sortKey a) (sortKey b)))

instance : IsTotal Entry keyLE := ⟨fun a b => le_total (sortKey a).data (sortKey b).data⟩

instance : IsTrans Entry keyLE := ⟨fun _ _ _ => le_trans⟩

/-- `discussions.sort(key=...)`: Python `list.sort` is a stable ascending
sort, embedded as insertion sort (the canonical stable sort). -/
def sortDiscussions (l : List Entry) : List Entry := l.insertionSort keyLE

/-- The participation dict: a mapping from sortable name to a boolean
vector, in insertion order (Python `dict` preserves insertion order;
re-assigning an existing key keeps its position). -/
abbrev PMatrix := List (String × List Bool)

/-- Python `d[k] = v` on an insertion-ordered dict. -/
def dictInsert (m : PMatrix) (k : String) (v : List Bool) : PMatrix :=
  if m.any (fun p => p.1 == k) then
    m.map (fun p => if p.1 = k then (p.1, v) else p)
  else m ++ [(k, v)]

/-- The dict comprehension
`{enrollee[1]: [False] * len(list_topic_titles) for enrollee in
enrollees_in_course}`: the matrix is keyed by the enrollee's sortable
NAME (tuple slot 1), not by the id. -/
def buildMatrix (enrollees : List Enrollee) (n : Nat) : PMatrix :=
  enrollees.foldl (fun m e => dictInsert m e.2 (List.replicate n false)) []

/-- One response of the `discussion_topics/{id}/view` endpoint.  `body` is
the parsed `participants` array's raw `id` fields (`none` models a
`JSONDecodeError`, after which `get_full_topic_view` returns `{}`). -/
structure ViewResp where
  status : Nat
  body : Option (List (Option Nat))
deriving DecidableEq, Repr

/-- Participants visible to `process_full_topic_view`:
`get_full_topic_view` returns the parsed view on 200 and `{}` on 403, on
any other status, and on a parse failure; `process_full_topic_view` then
reads `topic_view.get('participants', [])` and takes each
`participant.get('id', 'Unknown')`. -/
def viewParticipants (v : ViewResp) : List Ident :=
  if v.status = 200 then (v.body.getD []).map identOfOpt else []

/-- `enrollee_discussion_data[name][i] = True` — the assignment targets the
row whose key is `name`.  (In Python a missing key would raise `KeyError`;
in the program `name` always comes from `enrollees_in_course`, whose names
are exactly the dict's keys, so the map-if-present model agrees with the
source wherever the source returns.) -/
def setFlag (m : PMatrix) (name : String) (i : Nat) : PMatrix :=
  m.map (fun p => if p.1 = name then (p.1, p.2.set i true) else p)

/-- Python's `list.index`: the index of the FIRST element equal to the
argument.  (Python raises `ValueError` when the element is absent; this
model then returns the list's length, a case unreachable in the program,
where every processed topic's title is an element of
`list_topic_titles`.) -/
def pyIndex (title : String) : List String → Nat
  | [] => 0
  | t :: ts => if t = title then 0 else pyIndex title ts + 1

/-- The participant loop of `process_full_topic_view`: for each participant
id, find the first enrollee tuple with that id (`next(...)`); on a match,
set the matched name's row at `list_topic_titles.index(topic_title)` — the
index of the FIRST occurrence of the title. -/
def processTopic (enrollees : List Enrollee) (titles : List String)
    (title : String) (ps : List Ident) (m : PMatrix) : PMatrix :=
  ps.foldl (fun m pid =>
    match enrollees.find? (fun e => decide (e.1 = pid)) with
    | some e => setFlag m e.2 (pyIndex title titles)
    | none => m) m

/-- The `for _, topic_id, topic_title in discussions:` loop of
`get_course_discussion_data`: each topic's detail view is fetched in order
(pairing the i-th sorted topic with the i-th view response) and processed
by `process_full_topic_view`. -/
def processAll (enrollees : List Enrollee) (titles : List String) :
    List (Entry × ViewResp) → PMatrix → PMatrix
  | [], m => m
  | (e, v) :: rest, m =>
      processAll enrollees titles rest
        (processTopic enrollees titles e.2.2 (viewParticipants v) m)

/-- The row ordering of `OrderedDict(sorted(enrollee_discussion_data.items()))`:
items sorted ascending; Python compares the `(name, vector)` tuples, which
on a dict (unique keys) is ordering by name. -/
def rowLE (p q : String × List Bool) : Prop := pyLE p.1 q.1

instance : DecidableRel rowLE := fun p q => inferInstanceAs (Decidable (pyLE p.1 q.1))

instance : IsTotal (String × List Bool) rowLE := ⟨fun a b => le_total a.1.data b.1.data⟩

instance : IsTrans (String × List Bool) rowLE := ⟨fun _ _ _ => le_trans⟩

/-- `OrderedDict(sorted(enrollee_discussion_data.items()))`. -/
def sortMatrix (m : PMatrix) : PMatrix := m.insertionSort rowLE

/-- The assembly phase of `get_course_discussion_data`, given the gathered
`discussions` list: sort it, take the titles as the column axis, build the
all-false matrix keyed by sortable name, process every topic's view, and
return the name-sorted matrix with the title list.  `none` only when the
view oracle is too short (modelling artifact). -/
def assembleMatrix (enrollees : List Enrollee) (ds : List Entry)
    (vOracle : List ViewResp) : Option (PMatrix × List String) :=
  let sorted := sortDiscussions ds
  let titles := sorted.map (fun e => e.2.2)
  let m0 := buildMatrix enrollees titles.length
  if sorted.length ≤ vOracle.length then
    some (sortMatrix (processAll enrollees titles (sorted.zip vOracle) m0), titles)
  else none

/-- `get_course_discussion_data(course_id, enrollees_in_course)` over the
two response oracles. -/
def getCourseDiscussionData (enrollees : List Enrollee)
    (tOracle : List TopicResp) (vOracle : List ViewResp) :
    Option (PMatrix × List String) :=
  match listTopicsGo tOracle [] with
  | .starved => none
  | .aborted => some ([], [])
  | .done ds => assembleMatrix enrollees ds vOracle

/-- Pointwise evolution relation between a participation dict and a later
state of it: same number of entries, the entry at each position keeps its
key and its vector length, and every cell already `true` stays `true`
(cells change only from `false` to `true`). -/
def MatLE (m m' : PMatrix) : Prop :=
  m'.length = m.length ∧
  ∀ (i : Nat) (h : i < m.length) (h' : i < m'.length),
    (m'[i]).1 = (m[i]).1 ∧
    (m'[i]).2.length = (m[i]).2.length ∧
    ∀ (j : Nat), (m[i]).2[j]? = some true → (m'[i]).2[j]? = some true

/-- Every row vector of the dict has length `n`. -/
def rowsLen (m : PMatrix) (n : Nat) : Prop := ∀ p ∈ m, p.2.length = n

/-- Column `j` reads `false` in every row of the dict. -/
def colFalse (m : PMatrix) (j : Nat) : Prop := ∀ p ∈ m, p.2[j]? = some false

/-- Every row keyed by `name` reads `true` at column `j`. -/
def flaggedAt (m : PMatrix) (name : String) (j : Nat) : Prop :=
  ∀ p ∈ m, p.1 = name → p.2[j]? = some true

/-- Embedding sanity check, the specification's Scenario A: two enrollees,
two published topics with reversed chronological order; Alice participates
in the older topic, Bob in the newer one.  Expected column order
`[T2, T1]`, Alice's row `[true, false]`, Bob's row `[false, true]`. -/
theorem scenarioA :
    getCourseDiscussionData [(.mk 1, "Alice"), (.mk 2, "Bob")]
      [⟨200, some [⟨some true, some "T1", some 10, some (some "2024-01-02")⟩,
                   ⟨some true, some "T2", some 11, some (some "2024-01-01")⟩], ""⟩]
      [⟨200, some [some 1]⟩, ⟨200, some [some 2]⟩] =
    some ([("Alice", [true, false]), ("Bob", [false, true])], ["T2", "T1"]) := by decide

/-- C3 counterexample: an HTTP 503 response (a 5xx) to the enrollment
listing is NOT retried — `get_enrollees` only matches status 500 in its
retry branch, so 503 falls into the catch-all and aborts with `[]` at once,
even though the very next response would have succeeded.  A 500 in the same
position IS retried and the listing succeeds.  This refutes the claim that
any HTTP 5xx is retried. -/
theorem c3_counterexample :
    get_enrollees "StudentEnrollment"
      [⟨503, none, ""⟩,
       ⟨200, some [⟨some "StudentEnrollment", some ⟨some 1, some "A"⟩⟩], ""⟩] = .out [] ∧
    get_enrollees "StudentEnrollment"
      [⟨500, none, ""⟩,
       ⟨200, some [⟨some "StudentEnrollment", some ⟨some 1, some "A"⟩⟩], ""⟩] =
      .out [(.mk 1, "A")] := by decide

/-- C3 (amended): on the enrollment listing, an HTTP 500 response (exactly;
not other 5xx) is retried after a fixed delay, up to 3 total attempts; after
the attempts are exhausted the listing fails and returns an empty result;
401, 403 and 404 abort immediately with no retry, and so does every other
non-200, non-500 status (including other 5xx such as 502/503). -/
theorem c3_theorem :
    (∀ (etype : String) (r : EnrollResp) (rest : List EnrollResp)
       (attempts : Nat) (acc : List Enrollee), r.status = 500 → 2 ≤ attempts →
       getEnrolleesGo etype (r :: rest) attempts acc =
         getEnrolleesGo etype rest (attempts - 1) acc) ∧
    (∀ (etype : String) (r₁ r₂ r₃ : EnrollResp) (rest : List EnrollResp),
       r₁.status = 500 → r₂.status = 500 → r₃.status = 500 →
       get_enrollees etype (r₁ :: r₂ :: r₃ :: rest) = .out []) ∧
    (∀ (etype : String) (r : EnrollResp) (rest : List EnrollResp)
       (attempts : Nat) (acc : List Enrollee),
       r.status = 401 ∨ r.status = 403 ∨ r.status = 404 →
       getEnrolleesGo etype (r :: rest) attempts acc = .out []) ∧
    (∀ (etype : String) (r : EnrollResp) (rest : List EnrollResp)
       (attempts : Nat) (acc : List Enrollee), r.status ≠ 200 → r.status ≠ 500 →
       getEnrolleesGo etype (r :: rest) attempts acc = .out []) := by
  refine ⟨?_, ?_, ?_, ?_⟩
  · intro etype r rest attempts acc h hatt
    obtain ⟨s, b, n⟩ := r
    simp only at h
    subst h
    simp only [getEnrolleesGo]
    norm_num
    omega
  · intro etype r₁ r₂ r₃ rest h₁ h₂ h₃
    obtain ⟨s₁, b₁, n₁⟩ := r₁
    obtain ⟨s₂, b₂, n₂⟩ := r₂
    obtain ⟨s₃, b₃, n₃⟩ := r₃
    simp only at h₁ h₂ h₃
    subst h₁; subst h₂; subst h₃
    simp [get_enrollees, getEnrolleesGo, maxRetries]
  · intro etype r rest attempts acc h
    obtain ⟨s, b, n⟩ := r
    simp only at h
    simp only [getEnrolleesGo]
    rcases h with h | h | h <;> subst h <;> norm_num
  · intro etype r rest attempts acc h200 h500
    obtain ⟨s, b, n⟩ := r
    simp only at h200 h500
    simp only [getEnrolleesGo]
    simp [h200, h500]

/-- C3 witness: the amended behaviour at concrete inputs — a 500 is
retried, three 500s exhaust the attempts and yield `[]`, a 404 aborts at
once, a 503 aborts at once. -/
theorem c3_witness :
    (getEnrolleesGo "S" [⟨500, none, ""⟩, ⟨200, some [], ""⟩] 3 [] =
       getEnrolleesGo "S" [⟨200, some [], ""⟩] 2 []) ∧
    get_enrollees "S" [⟨500, none, ""⟩, ⟨500, none, ""⟩, ⟨500, none, ""⟩] = .out [] ∧
    getEnrolleesGo "S" [⟨404, none, ""⟩] 3 [] = .out [] ∧
    getEnrolleesGo "S" [⟨503, none, ""⟩] 3 [] = .out [] :=
  ⟨c3_theorem.1 "S" _ _ 3 [] rfl (by decide),
   c3_theorem.2.1 "S" _ _ _ [] rfl rfl rfl,
   c3_theorem.2.2.1 "S" _ [] 3 [] (Or.inr (Or.inr rfl)),
   c3_theorem.2.2.2 "S" _ [] 3 [] (by decide) (by decide)⟩

/-- C5 counterexample: the same user id on two different pages of the
enrollment listing yields two entries in the result of `get_enrollees` —
no de-duplication is performed. -/
theorem c5_counterexample :
    get_enrollees "StudentEnrollment"
      [⟨200, some [⟨some "StudentEnrollment", some ⟨some 1, some "A"⟩⟩], "u"⟩,
       ⟨200, some [⟨some "StudentEnrollment", some ⟨some 1, some "A"⟩⟩], ""⟩] =
      .out [(.mk 1, "A"), (.mk 1, "A")] := by decide

/-- C5 (amended): `get_enrollees` returns the plain concatenation of the
per-page extractions, one entry per matching record, with no
de-duplication: an identifier appearing in several pages' records appears
once per record in the result (duplicates only collapse later, when the
participation dict is keyed by sortable name). -/
theorem c5_theorem :
    (∀ (etype : String) (d₁ d₂ : List EnrollRecord),
       get_enrollees etype [⟨200, some d₁, "u"⟩, ⟨200, some d₂, ""⟩] =
         .out (enrolleesFromPage etype d₁ ++ enrolleesFromPage etype d₂)) ∧
    (∀ (etype : String) (r : EnrollResp) (rest : List EnrollResp)
       (attempts : Nat) (acc : List Enrollee) (data : List EnrollRecord),
       r.status = 200 → r.body = some data → r.next ≠ "" →
       getEnrolleesGo etype (r :: rest) attempts acc =
         getEnrolleesGo etype rest maxRetries (acc ++ enrolleesFromPage etype data)) := by
  constructor
  · intro etype d₁ d₂
    simp [get_enrollees, getEnrolleesGo]
  · intro etype r rest attempts acc data hs hb hn
    obtain ⟨s, b, n⟩ := r
    simp only at hs hb hn
    subst hs; subst hb
    simp [getEnrolleesGo, hn]

/-- C5 witness: the page-step conjunct at a concrete input. -/
theorem c5_witness :
    get_enrollees "S" [⟨200, some [], "u"⟩, ⟨200, some [], ""⟩] =
      .out (enrolleesFromPage "S" [] ++ enrolleesFromPage "S" []) ∧
    getEnrolleesGo "S" [⟨200, some [], "u"⟩] 3 [] =
      getEnrolleesGo "S" [] maxRetries ([] ++ enrolleesFromPage "S" []) :=
  ⟨c5_theorem.1 "S" [] [],
   c5_theorem.2 "S" _ [] 3 [] [] rfl rfl (by decide)⟩

/-- C6 counterexample: an enrollment record whose nested user has no `id`
is NOT skipped — `get_enrollees` keeps it, substituting the placeholder
`'Unknown'` (modelled as `Ident.unknown`) for the identifier, so the result
is a one-entry list rather than the empty list the claim requires. -/
theorem c6_counterexample :
    get_enrollees "StudentEnrollment"
      [⟨200, some [⟨some "StudentEnrollment", some ⟨none, some "A"⟩⟩], ""⟩] =
      .out [(.unknown, "A")] := by decide

/-- C6 (amended): an enrollment record whose nested user lacks an
identifier is retained with the placeholder identifier `'Unknown'` (not
skipped); it does not abort the run, and every record of the page whose
`type` matches is resolved into the result, id-less ones included. -/
theorem c6_theorem :
    (∀ (t : Option String) (nm : Option String),
       extractEnrollee ⟨t, some ⟨none, nm⟩⟩ = (.unknown, pyStrip (nm.getD "Unknown"))) ∧
    (∀ (etype : String) (data : List EnrollRecord),
       get_enrollees etype [⟨200, some data, ""⟩] = .out (enrolleesFromPage etype data)) ∧
    (∀ (etype : String) (data : List EnrollRecord) (r : EnrollRecord),
       r ∈ data → r.type? = some etype →
       extractEnrollee r ∈ enrolleesFromPage etype data) := by
  refine ⟨?_, ?_, ?_⟩
  · intro t nm
    rfl
  · intro etype data
    simp [get_enrollees, getEnrolleesGo]
  · intro etype data r hr ht
    exact List.mem_map_of_mem _ (List.mem_filter.mpr ⟨hr, by simp [ht]⟩)

/-- C6 witness: a page holding an id-less record and an id-bearing record
resolves both. -/
theorem c6_witness :
    extractEnrollee ⟨some "S", some ⟨none, some "A"⟩⟩ =
      (.unknown, pyStrip ((some "A").getD "Unknown")) ∧
    get_enrollees "S"
      [⟨200, some [⟨some "S", some ⟨none, some "A"⟩⟩, ⟨some "S", some ⟨some 2, some "B"⟩⟩], ""⟩] =
      .out (enrolleesFromPage "S"
        [⟨some "S", some ⟨none, some "A"⟩⟩, ⟨some "S", some ⟨some 2, some "B"⟩⟩]) ∧
    extractEnrollee ⟨some "S", some ⟨none, some "A"⟩⟩ ∈
      enrolleesFromPage "S"
        [⟨some "S", some ⟨none, some "A"⟩⟩, ⟨some "S", some ⟨some 2, some "B"⟩⟩] :=
  ⟨c6_theorem.1 (some "S") (some "A"),
   c6_theorem.2.1 "S" _,
   c6_theorem.2.2 "S" _ _ (by decide) rfl⟩

/-- C1 counterexample: a non-200 response on the second page of the topic
listing does not abort — the loop merely stops paginating
(`page_url = None`) and keeps the topics gathered from the first page, so
the catalog is the partial one-topic list, not the empty list the claim
requires. -/
theorem c1_counterexample :
    listTopicsGo
      [⟨200, some [⟨some true, some "T", some 10, some (some "b")⟩], "u"⟩,
       ⟨500, none, ""⟩] [] =
      .done [(some "b", .mk 10, "T")] := by decide

/-- C1 (amended): during topic gathering, a page body that fails to parse
aborts the whole call, which returns the empty dict and empty topic list;
but a page-level non-200 status does NOT abort: it only stops the
pagination, and the topics accumulated from earlier pages are kept as a
partial catalog. -/
theorem c1_theorem :
    (∀ (nxt : String) (rest : List TopicResp) (acc : List Entry),
       listTopicsGo (⟨200, none, nxt⟩ :: rest) acc = .aborted) ∧
    (∀ (enrollees : List Enrollee) (vO : List ViewResp) (nxt : String)
       (rest : List TopicResp),
       getCourseDiscussionData enrollees (⟨200, none, nxt⟩ :: rest) vO = some ([], [])) ∧
    (∀ (r : TopicResp) (rest : List TopicResp) (acc : List Entry),
       r.status ≠ 200 → listTopicsGo (r :: rest) acc = .done acc) := by
  refine ⟨?_, ?_, ?_⟩
  · intro nxt rest acc
    simp [listTopicsGo]
  · intro enrollees vO nxt rest
    simp [getCourseDiscussionData, listTopicsGo]
  · intro r rest acc h
    obtain ⟨s, b, n⟩ := r
    simp only at h
    simp [listTopicsGo, h]

/-- C1 witness: the non-200 conjunct at a concrete input. -/
theorem c1_witness :
    listTopicsGo [(⟨200, none, ""⟩ : TopicResp)] [] = .aborted ∧
    getCourseDiscussionData [] [⟨200, none, ""⟩] [] = some ([], []) ∧
    listTopicsGo [(⟨500, none, ""⟩ : TopicResp)] [(some "b", .mk 1, "T")] =
      .done [(some "b", .mk 1, "T")] :=
  ⟨c1_theorem.1 "" [] [],
   c1_theorem.2.1 [] [] "" [],
   c1_theorem.2.2 _ [] _ (by decide)⟩

/-! Helper lemmas about cell updates and the evolution relation. -/

theorem get?_set_true (l : List Bool) (i j : Nat) (h : l[j]? = some true) :
    (l.set i true)[j]? = some true := by
  rcases eq_or_ne i j with rfl | hne
  · have hlt : i < l.length := by
      by_contra hl
      rw [List.getElem?_eq_none (le_of_not_lt hl)] at h
      exact Option.noConfusion h
    rw [List.getElem?_set_self hlt]
  · rw [List.getElem?_set_ne hne]
    exact h

theorem matLE_refl (m : PMatrix) : MatLE m m :=
  ⟨rfl, fun _ _ _ => ⟨rfl, rfl, fun _ hj => hj⟩⟩

theorem matLE_trans {m₁ m₂ m₃ : PMatrix} (h12 : MatLE m₁ m₂) (h23 : MatLE m₂ m₃) :
    MatLE m₁ m₃ := by
  obtain ⟨hl12, hp12⟩ := h12
  obtain ⟨hl23, hp23⟩ := h23
  refine ⟨hl23.trans hl12, fun i h h' => ?_⟩
  have h2 : i < m₂.length := by omega
  obtain ⟨k1, l1, t1⟩ := hp12 i h h2
  obtain ⟨k2, l2, t2⟩ := hp23 i h2 h'
  exact ⟨k2.trans k1, l2.trans l1, fun j hj => t2 j (t1 j hj)⟩

theorem setFlag_getElem (m : PMatrix) (name : String) (i k : Nat)
    (hk : k < m.length) (h : k < (setFlag m name i).length) :
    (setFlag m name i)[k] =
      if (m[k]).1 = name then ((m[k]).1, (m[k]).2.set i true) else m[k] := by
  simp only [setFlag, List.getElem_map]

theorem matLE_setFlag (m : PMatrix) (name : String) (i : Nat) :
    MatLE m (setFlag m name i) := by
  refine ⟨List.length_map _ _, fun k hk hk' => ?_⟩
  rw [setFlag_getElem m name i k hk hk']
  by_cases hc : (m[k]).1 = name
  · rw [if_pos hc]
    exact ⟨rfl, List.length_set _ _ _, fun j hj => get?_set_true _ _ _ hj⟩
  · rw [if_neg hc]
    exact ⟨rfl, rfl, fun _ hj => hj⟩

theorem matLE_processTopic (E : List Enrollee) (T : List String) (t : String)
    (ps : List Ident) (m : PMatrix) : MatLE m (processTopic E T t ps m) := by
  induction ps generalizing m with
  | nil => exact matLE_refl m
  | cons pid ps ih =>
    have hunf : processTopic E T t (pid :: ps) m =
        processTopic E T t ps
          (match E.find? (fun e => decide (e.1 = pid)) with
           | some e => setFlag m e.2 (pyIndex t T)
           | none => m) := rfl
    rw [hunf]
    have step : MatLE m
        (match E.find? (fun e => decide (e.1 = pid)) with
         | some e => setFlag m e.2 (pyIndex t T)
         | none => m) := by
      cases E.find? (fun e => decide (e.1 = pid)) with
      | some e => exact matLE_setFlag m e.2 (pyIndex t T)
      | none => exact matLE_refl m
    exact matLE_trans step (ih _)

theorem matLE_processAll (E : List Enrollee) (T : List String)
    (pairs : List (Entry × ViewResp)) (m : PMatrix) :
    MatLE m (processAll E T pairs m) := by
  induction pairs generalizing m with
  | nil => exact matLE_refl m
  | cons pr rest ih =>
    obtain ⟨e, v⟩ := pr
    exact matLE_trans (matLE_processTopic E T e.2.2 (viewParticipants v) m) (ih _)

theorem matLE_map_fst {m m' : PMatrix} (h : MatLE m m') :
    m'.map Prod.fst = m.map Prod.fst := by
  obtain ⟨hl, hp⟩ := h
  apply List.ext_getElem (by simp [hl])
  intro n h1 h2
  simp only [List.getElem_map]
  exact (hp n (by simpa using h2) (by simpa using h1)).1

theorem rowsLen_of_matLE {m m' : PMatrix} {n : Nat} (h : MatLE m m')
    (hr : rowsLen m n) : rowsLen m' n := by
  obtain ⟨hl, hp⟩ := h
  intro p hpmem
  obtain ⟨i, hi, rfl⟩ := List.getElem_of_mem hpmem
  have hm : i < m.length := by omega
  have hlen := (hp i hm hi).2.1
  rw [hlen]
  exact hr _ (List.getElem_mem hm)

theorem rowsLen_setFlag {m : PMatrix} {n : Nat} (name : String) (i : Nat)
    (h : rowsLen m n) : rowsLen (setFlag m name i) n := by
  intro p hp
  obtain ⟨q, hq, rfl⟩ := List.mem_map.mp hp
  by_cases hc : q.1 = name <;> simp [hc, List.length_set, h q hq]

theorem colFalse_setFlag {m : PMatrix} {j : Nat} (name : String) {i : Nat}
    (hne : i ≠ j) (h : colFalse m j) : colFalse (setFlag m name i) j := by
  intro p hp
  obtain ⟨q, hq, rfl⟩ := List.mem_map.mp hp
  by_cases hc : q.1 = name <;>
    simp [hc, List.getElem?_set_ne hne, h q hq]

theorem flaggedAt_setFlag {m : PMatrix} {name : String} {j : Nat}
    (name' : String) (i : Nat) (h : flaggedAt m name j) :
    flaggedAt (setFlag m name' i) name j := by
  intro p hp hname
  obtain ⟨q, hq, rfl⟩ := List.mem_map.mp hp
  by_cases hc : q.1 = name'
  · rw [if_pos hc] at hname ⊢
    exact get?_set_true _ _ _ (h q hq hname)
  · rw [if_neg hc] at hname ⊢
    exact h q hq hname

theorem flaggedAt_setFlag_self {m : PMatrix} {n : Nat} (name : String) {i : Nat}
    (hr : rowsLen m n) (hi : i < n) : flaggedAt (setFlag m name i) name i := by
  intro p hp hname
  obtain ⟨q, hq, rfl⟩ := List.mem_map.mp hp
  by_cases hc : q.1 = name
  · rw [if_pos hc]
    exact List.getElem?_set_self (by rw [hr q hq]; exact hi)
  · rw [if_neg hc] at hname
    exact absurd hname hc

theorem colFalse_processTopic {m : PMatrix} {j : Nat} (E : List Enrollee)
    (T : List String) (t : String) (ps : List Ident)
    (hne : pyIndex t T ≠ j) (h : colFalse m j) :
    colFalse (processTopic E T t ps m) j := by
  induction ps generalizing m with
  | nil => exact h
  | cons pid ps ih =>
    have hunf : processTopic E T t (pid :: ps) m =
        processTopic E T t ps
          (match E.find? (fun e => decide (e.1 = pid)) with
           | some e => setFlag m e.2 (pyIndex t T)
           | none => m) := rfl
    rw [hunf]
    apply ih
    cases E.find? (fun e => decide (e.1 = pid)) with
    | some e => exact colFalse_setFlag e.2 hne h
    | none => exact h

theorem flaggedAt_processTopic {m : PMatrix} {name : String} {j : Nat}
    (E : List Enrollee) (T : List String) (t : String) (ps : List Ident)
    (h : flaggedAt m name j) : flaggedAt (processTopic E T t ps m) name j := by
  induction ps generalizing m with
  | nil => exact h
  | cons pid ps ih =>
    have hunf : processTopic E T t (pid :: ps) m =
        processTopic E T t ps
          (match E.find? (fun e => decide (e.1 = pid)) with
           | some e => setFlag m e.2 (pyIndex t T)
           | none => m) := rfl
    rw [hunf]
    apply ih
    cases E.find? (fun e => decide (e.1 = pid)) with
    | some e => exact flaggedAt_setFlag e.2 _ h
    | none => exact h

theorem rowsLen_processTopic {m : PMatrix} {n : Nat} (E : List Enrollee)
    (T : List String) (t : String) (ps : List Ident) (h : rowsLen m n) :
    rowsLen (processTopic E T t ps m) n :=
  rowsLen_of_matLE (matLE_processTopic E T t ps m) h

theorem flaggedAt_processAll {m : PMatrix} {name : String} {j : Nat}
    (E : List Enrollee) (T : List String) (pairs : List (Entry × ViewResp))
    (h : flaggedAt m name j) : flaggedAt (processAll E T pairs m) name j := by
  induction pairs generalizing m with
  | nil => exact h
  | cons pr rest ih =>
    obtain ⟨e, v⟩ := pr
    exact ih (flaggedAt_processTopic E T e.2.2 (viewParticipants v) h)

theorem colFalse_processAll {j : Nat} (E : List Enrollee) (T : List String)
    (pairs : List (Entry × ViewResp)) (m : PMatrix)
    (hcond : ∀ pr ∈ pairs, pyIndex pr.1.2.2 T ≠ j ∨ viewParticipants pr.2 = [])
    (h : colFalse m j) : colFalse (processAll E T pairs m) j := by
  induction pairs generalizing m with
  | nil => exact h
  | cons pr rest ih =>
    obtain ⟨e, v⟩ := pr
    have hstep : colFalse (processTopic E T e.2.2 (viewParticipants v) m) j := by
      rcases hcond (e, v) (List.mem_cons_self _ _) with hne | hemp
      · exact colFalse_processTopic E T e.2.2 (viewParticipants v) hne h
      · rw [hemp]
        exact h
    exact ih _ (fun pr hpr => hcond pr (List.mem_cons_of_mem _ hpr)) hstep

theorem pyIndex_lt_length {title : String} {titles : List String}
    (h : title ∈ titles) : pyIndex title titles < titles.length := by
  induction titles with
  | nil => cases h
  | cons t ts ih =>
    by_cases hc : t = title
    · simp [pyIndex, hc]
    · rcases List.mem_cons.mp h with rfl | hmem
      · exact absurd rfl hc
      · simp only [pyIndex, if_neg hc, List.length_cons]
        exact Nat.succ_lt_succ (ih hmem)

theorem pyIndex_nodup_getElem {titles : List String} (hnd : titles.Nodup)
    (i : Nat) (hi : i < titles.length) : pyIndex titles[i] titles = i := by
  induction titles generalizing i with
  | nil => cases hi
  | cons t ts ih =>
    rcases Nat.eq_zero_or_pos i with rfl | hpos
    · simp [pyIndex]
    · obtain ⟨i, rfl⟩ := Nat.exists_eq_succ_of_ne_zero (Nat.pos_iff_ne_zero.mp hpos)
      have hi' : i < ts.length := by
        simpa [Nat.succ_lt_succ_iff] using hi
      have hnodup := List.nodup_cons.mp hnd
      have hmem : ts[i] ∈ ts := List.getElem_mem hi'
      have hne : t ≠ ts[i] := fun he => hnodup.1 (he ▸ hmem)
      simp only [List.getElem_cons_succ, pyIndex, if_neg hne]
      rw [ih hnodup.2 i hi']

/-! Lemmas about the dict comprehension that initializes the matrix. -/

theorem dictInsert_map_fst_of_mem {m : PMatrix} {k : String} (v : List Bool)
    (h : m.any (fun p => p.1 == k) = true) :
    (dictInsert m k v).map Prod.fst = m.map Prod.fst := by
  unfold dictInsert
  rw [if_pos h, List.map_map]
  apply List.map_congr_left
  intro p _
  by_cases hc : p.1 = k <;> simp [hc]

theorem dictInsert_map_fst_of_not_mem {m : PMatrix} {k : String} (v : List Bool)
    (h : ¬ m.any (fun p => p.1 == k) = true) :
    (dictInsert m k v).map Prod.fst = m.map Prod.fst ++ [k] := by
  unfold dictInsert
  rw [if_neg h, List.map_append]
  rfl

theorem any_fst_iff (m : PMatrix) (k : String) :
    m.any (fun p => p.1 == k) = true ↔ k ∈ m.map Prod.fst := by
  rw [List.any_eq_true]
  constructor
  · rintro ⟨p, hp, hpk⟩
    rw [beq_iff_eq] at hpk
    exact List.mem_map.mpr ⟨p, hp, hpk⟩
  · rintro hmem
    obtain ⟨p, hp, hpk⟩ := List.mem_map.mp hmem
    exact ⟨p, hp, beq_iff_eq.mpr hpk⟩

theorem dictInsert_mem_fst (m : PMatrix) (k : String) (v : List Bool) (a : String) :
    a ∈ (dictInsert m k v).map Prod.fst ↔ a ∈ m.map Prod.fst ∨ a = k := by
  by_cases h : m.any (fun p => p.1 == k) = true
  · rw [dictInsert_map_fst_of_mem v h]
    constructor
    · exact Or.inl
    · rintro (ha | rfl)
      · exact ha
      · exact (any_fst_iff m _).mp h
  · rw [dictInsert_map_fst_of_not_mem v h]
    simp

theorem dictInsert_nodup_fst {m : PMatrix} (k : String) (v : List Bool)
    (h : (m.map Prod.fst).Nodup) : ((dictInsert m k v).map Prod.fst).Nodup := by
  by_cases hany : m.any (fun p => p.1 == k) = true
  · rw [dictInsert_map_fst_of_mem v hany]
    exact h
  · rw [dictInsert_map_fst_of_not_mem v hany]
    have hk : k ∉ m.map Prod.fst := fun hmem => hany ((any_fst_iff m k).mpr hmem)
    simp [List.nodup_append, h, hk]

theorem dictInsert_rows {m : PMatrix} {v : List Bool} (k : String)
    (h : ∀ p ∈ m, p.2 = v) : ∀ p ∈ dictInsert m k v, p.2 = v := by
  intro p hp
  unfold dictInsert at hp
  split at hp
  · obtain ⟨q, hq, rfl⟩ := List.mem_map.mp hp
    by_cases hc : q.1 = k <;> simp [hc, h q hq]
  · rcases List.mem_append.mp hp with h1 | h2
    · exact h p h1
    · simp only [List.mem_singleton] at h2
      rw [h2]

theorem buildMatrixAux_mem (E : List Enrollee) (n : Nat) (m : PMatrix) (a : String) :
    a ∈ ((E.foldl (fun m e => dictInsert m e.2 (List.replicate n false)) m).map Prod.fst) ↔
      a ∈ m.map Prod.fst ∨ ∃ e ∈ E, e.2 = a := by
  induction E generalizing m with
  | nil => simp
  | cons e E ih =>
    rw [List.foldl_cons, ih, dictInsert_mem_fst]
    constructor
    · rintro ((ha | rfl) | ⟨e', he', rfl⟩)
      · exact Or.inl ha
      · exact Or.inr ⟨e, List.mem_cons_self _ _, rfl⟩
      · exact Or.inr ⟨e', List.mem_cons_of_mem _ he', rfl⟩
    · rintro (ha | ⟨e', he', rfl⟩)
      · exact Or.inl (Or.inl ha)
      · rcases List.mem_cons.mp he' with rfl | hmem
        · exact Or.inl (Or.inr rfl)
        · exact Or.inr ⟨e', hmem, rfl⟩

theorem buildMatrixAux_nodup (E : List Enrollee) (n : Nat) (m : PMatrix)
    (h : (m.map Prod.fst).Nodup) :
    (((E.foldl (fun m e => dictInsert m e.2 (List.replicate n false)) m)).map Prod.fst).Nodup := by
  induction E generalizing m with
  | nil => exact h
  | cons e E ih => exact ih _ (dictInsert_nodup_fst e.2 _ h)

theorem buildMatrixAux_rows (E : List Enrollee) (n : Nat) (m : PMatrix)
    (h : ∀ p ∈ m, p.2 = List.replicate n false) :
    ∀ p ∈ E.foldl (fun m e => dictInsert m e.2 (List.replicate n false)) m,
      p.2 = List.replicate n false := by
  induction E generalizing m with
  | nil => exact h
  | cons e E ih => exact ih _ (dictInsert_rows e.2 h)

theorem buildMatrix_mem (E : List Enrollee) (n : Nat) (a : String) :
    a ∈ (buildMatrix E n).map Prod.fst ↔ ∃ e ∈ E, e.2 = a := by
  rw [buildMatrix, buildMatrixAux_mem]
  simp

theorem buildMatrix_nodup (E : List Enrollee) (n : Nat) :
    ((buildMatrix E n).map Prod.fst).Nodup :=
  buildMatrixAux_nodup E n [] (by simp)

theorem buildMatrix_rows (E : List Enrollee) (n : Nat) :
    ∀ p ∈ buildMatrix E n, p.2 = List.replicate n false :=
  buildMatrixAux_rows E n [] (by simp)

theorem buildMatrix_rowsLen (E : List Enrollee) (n : Nat) :
    rowsLen (buildMatrix E n) n := by
  intro p hp
  rw [buildMatrix_rows E n p hp]
  exact List.length_replicate _ _

theorem buildMatrix_colFalse (E : List Enrollee) {n j : Nat} (hj : j < n) :
    colFalse (buildMatrix E n) j := by
  intro p hp
  rw [buildMatrix_rows E n p hp]
  simp [List.getElem?_replicate, hj]

/-! Lemmas about the final name-ordering of the matrix. -/

theorem sortMatrix_perm (m : PMatrix) : (sortMatrix m).Perm m :=
  List.perm_insertionSort rowLE m

theorem sortMatrix_mem_iff (m : PMatrix) (p : String × List Bool) :
    p ∈ sortMatrix m ↔ p ∈ m :=
  (sortMatrix_perm m).mem_iff

theorem sortMatrix_map_fst_mem (m : PMatrix) (a : String) :
    a ∈ (sortMatrix m).map Prod.fst ↔ a ∈ m.map Prod.fst :=
  ((sortMatrix_perm m).map Prod.fst).mem_iff

theorem sortMatrix_map_fst_nodup {m : PMatrix}
    (h : (m.map Prod.fst).Nodup) : ((sortMatrix m).map Prod.fst).Nodup :=
  ((sortMatrix_perm m).map Prod.fst).nodup_iff.mpr h

theorem assembleMatrix_eq {enrollees : List Enrollee} {ds : List Entry}
    {vO : List ViewResp} {m : PMatrix} {titles : List String}
    (h : assembleMatrix enrollees ds vO = some (m, titles)) :
    titles = (sortDiscussions ds).map (fun e => e.2.2) ∧
    (sortDiscussions ds).length ≤ vO.length ∧
    m = sortMatrix (processAll enrollees ((sortDiscussions ds).map (fun e => e.2.2))
          ((sortDiscussions ds).zip vO)
          (buildMatrix enrollees ((sortDiscussions ds).map (fun e => e.2.2)).length)) := by
  by_cases hle : (sortDiscussions ds).length ≤ vO.length
  · simp only [assembleMatrix, if_pos hle] at h
    have heq := Option.some.inj h
    exact ⟨(congrArg Prod.snd heq).symm, hle, (congrArg Prod.fst heq).symm⟩
  · simp only [assembleMatrix, if_neg hle] at h
    exact Option.noConfusion h

/-- If a participant id is present and finds a matching enrollee, the fold
of `process_full_topic_view` leaves every row keyed by the matched name
flagged at the title's first-occurrence index. -/
theorem processTopic_flags {enrollees : List Enrollee} {titles : List String}
    {title : String} {ps : List Ident} {m : PMatrix} {pid : Ident}
    {e : Enrollee} {n : Nat}
    (hfind : enrollees.find? (fun q => decide (q.1 = pid)) = some e)
    (hp : pid ∈ ps) (hrows : rowsLen m n) (hidx : pyIndex title titles < n) :
    flaggedAt (processTopic enrollees titles title ps m) e.2 (pyIndex title titles) := by
  induction ps generalizing m with
  | nil => cases hp
  | cons pid' ps ih =>
    have hunf : processTopic enrollees titles title (pid' :: ps) m =
        processTopic enrollees titles title ps
          (match enrollees.find? (fun q => decide (q.1 = pid')) with
           | some q => setFlag m q.2 (pyIndex title titles)
           | none => m) := rfl
    rw [hunf]
    rcases List.mem_cons.mp hp with rfl | hmem
    · rw [hfind]
      exact flaggedAt_processTopic _ _ _ _ (flaggedAt_setFlag_self e.2 hrows hidx)
    · apply ih hmem
      cases enrollees.find? (fun q => decide (q.1 = pid')) with
      | some q => exact rowsLen_setFlag q.2 _ hrows
      | none => exact hrows

/-- C10: a single invocation of `process_full_topic_view` on an
already-initialized matrix is shape-preserving and monotone: the key
sequence is unchanged (no row added or removed), every row keeps its
vector length, and every cell that was `true` stays `true` — the only
possible change is a cell going from `false` to `true`.  (The hypothesis
scopes the statement to invocations reachable in the program, where the
processed topic's title is an element of `list_topic_titles`.) -/
theorem c10_theorem (enrollees : List Enrollee) (titles : List String)
    (title : String) (ps : List Ident) (m : PMatrix) (hmem : title ∈ titles) :
    (processTopic enrollees titles title ps m).map Prod.fst = m.map Prod.fst ∧
    MatLE m (processTopic enrollees titles title ps m) :=
  ⟨matLE_map_fst (matLE_processTopic enrollees titles title ps m),
   matLE_processTopic enrollees titles title ps m⟩

/-- C10 witness: the monotone-update statement at a concrete invocation. -/
theorem c10_witness :
    (processTopic [((.mk 1 : Ident), "A")] ["T"] "T" [.mk 1]
        [("A", [false])]).map Prod.fst = ([("A", [false])] : PMatrix).map Prod.fst ∧
    MatLE [("A", [false])]
      (processTopic [((.mk 1 : Ident), "A")] ["T"] "T" [.mk 1] [("A", [false])]) :=
  c10_theorem [(.mk 1, "A")] ["T"] "T" [.mk 1] [("A", [false])] (by decide)

/-- C8: every key of the final matrix returned by
`get_course_discussion_data` corresponds to an enrollee of the resolved
enrollment set, and `process_full_topic_view` never changes the key
sequence — an unmatched participant never creates a new row. -/
theorem c8_theorem (enrollees : List Enrollee) (tO : List TopicResp)
    (vO : List ViewResp) (m : PMatrix) (titles : List String)
    (h : getCourseDiscussionData enrollees tO vO = some (m, titles)) :
    (∀ k ∈ m.map Prod.fst, ∃ e ∈ enrollees, e.2 = k) ∧
    (∀ (E : List Enrollee) (T : List String) (t : String) (ps : List Ident)
       (m' : PMatrix),
       (processTopic E T t ps m').map Prod.fst = m'.map Prod.fst) := by
  constructor
  · unfold getCourseDiscussionData at h
    cases hphase : listTopicsGo tO [] with
    | starved =>
      rw [hphase] at h
      exact absurd h (by simp)
    | aborted =>
      rw [hphase] at h
      have heq := Option.some.inj h
      have hm : ([] : PMatrix) = m := congrArg Prod.fst heq
      intro k hk
      rw [← hm] at hk
      simp at hk
    | done ds =>
      rw [hphase] at h
      obtain ⟨htitles, hle, hm⟩ := assembleMatrix_eq h
      subst hm
      intro k hk
      rw [sortMatrix_map_fst_mem,
        matLE_map_fst (matLE_processAll _ _ _ _), buildMatrix_mem] at hk
      exact hk
  · intro E T t ps m'
    exact matLE_map_fst (matLE_processTopic E T t ps m')

/-- C8 witness: the no-foreign-rows statement at a concrete completed
run. -/
theorem c8_witness :
    (∀ k ∈ ([("A", [true])] : PMatrix).map Prod.fst,
       ∃ e ∈ [((.mk 1 : Ident), "A")], e.2 = k) ∧
    (∀ (E : List Enrollee) (T : List String) (t : String) (ps : List Ident)
       (m' : PMatrix),
       (processTopic E T t ps m').map Prod.fst = m'.map Prod.fst) :=
  c8_theorem [(.mk 1, "A")]
    [⟨200, some [⟨some true, some "T", some 10, some (some "b")⟩], ""⟩]
    [⟨200, some [some 1]⟩] [("A", [true])] ["T"] (by decide)

/-- C2 counterexample: the matrix is keyed by sortable NAME, not by
enrollee: two distinct resolved enrollees (ids 1 and 2) sharing the
sortable name "X" collapse into a single row, so the final matrix does not
contain one row per resolved enrollee. -/
theorem c2_counterexample :
    assembleMatrix [((.mk 1 : Ident), "X"), (.mk 2, "X")] [] [] =
      some ([("X", [])], []) ∧
    ([((.mk 1 : Ident), "X"), (.mk 2, "X")] : List Enrollee).length = 2 := by decide

/-- C2 (amended): the final matrix contains exactly one row per DISTINCT
sortable name among the resolved enrollees (enrollees sharing a name share
a row): its keys are exactly the enrollee names, without duplicates; every
row's vector length equals the number of topics; and the matrix is
initialized with every row an all-false vector of that length before any
topic is processed. -/
theorem c2_theorem (enrollees : List Enrollee) (ds : List Entry)
    (vO : List ViewResp) (m : PMatrix) (titles : List String)
    (h : assembleMatrix enrollees ds vO = some (m, titles)) :
    (m.map Prod.fst).Nodup ∧
    (∀ k : String, k ∈ m.map Prod.fst ↔ ∃ e ∈ enrollees, e.2 = k) ∧
    rowsLen m titles.length ∧
    (∀ p ∈ buildMatrix enrollees titles.length, p.2 = List.replicate titles.length false) := by
  obtain ⟨htitles, hle, hm⟩ := assembleMatrix_eq h
  subst htitles
  subst hm
  refine ⟨?_, ?_, ?_, buildMatrix_rows _ _⟩
  · apply sortMatrix_map_fst_nodup
    rw [matLE_map_fst (matLE_processAll _ _ _ _)]
    exact buildMatrix_nodup _ _
  · intro k
    rw [sortMatrix_map_fst_mem, matLE_map_fst (matLE_processAll _ _ _ _),
      buildMatrix_mem]
  · intro p hp
    exact rowsLen_of_matLE (matLE_processAll _ _ _ _) (buildMatrix_rowsLen _ _) p
      ((sortMatrix_mem_iff _ _).mp hp)

/-- C2 witness: the amended row-structure statement at a concrete run. -/
theorem c2_witness :
    (([("A", ([] : List Bool))] : PMatrix).map Prod.fst).Nodup ∧
    (∀ k : String, k ∈ ([("A", ([] : List Bool))] : PMatrix).map Prod.fst ↔
       ∃ e ∈ [((.mk 1 : Ident), "A")], e.2 = k) ∧
    rowsLen [("A", ([] : List Bool))] ([] : List String).length ∧
    (∀ p ∈ buildMatrix [((.mk 1 : Ident), "A")] ([] : List String).length,
       p.2 = List.replicate ([] : List String).length false) :=
  c2_theorem [(.mk 1, "A")] [] [] [("A", [])] [] (by decide)

/-- C4 counterexample: two distinct published topics (ids 10 and 11) share
the title "T"; topic 11 is the SECOND column, but the participation flag
for its participant is written at `list_topic_titles.index("T") = 0`, the
first column — not at topic 11's own index 1.  The claim's required result
would be a row `[false, true]`. -/
theorem c4_counterexample :
    assembleMatrix [((.mk 1 : Ident), "A")]
      [(some "b", .mk 10, "T"), (some "c", .mk 11, "T")]
      [⟨200, some []⟩, ⟨200, some [some 1]⟩] =
      some ([("A", [true, false])], ["T", "T"]) := by decide

/-- C4 (amended): on a participant match the flag is set at the index of
the FIRST topic bearing the processed topic's title (Python's
`list.index`); this equals the topic's own index exactly when no earlier
topic shares its title — in particular whenever the title list has no
duplicates. -/
theorem c4_theorem (enrollees : List Enrollee) (titles : List String)
    (title : String) (ps : List Ident) (m : PMatrix) (pid : Ident)
    (e : Enrollee) (n : Nat)
    (hfind : enrollees.find? (fun q => decide (q.1 = pid)) = some e)
    (hp : pid ∈ ps) (hrows : rowsLen m n) (hidx : pyIndex title titles < n) :
    (∀ p ∈ processTopic enrollees titles title ps m, p.1 = e.2 →
       p.2[pyIndex title titles]? = some true) ∧
    (titles.Nodup → ∀ (i : Nat) (hi : i < titles.length), titles[i] = title →
       pyIndex title titles = i) :=
  ⟨processTopic_flags hfind hp hrows hidx,
   fun hnd i hi hti => hti ▸ pyIndex_nodup_getElem hnd i hi⟩

/-- C4 witness: the first-occurrence flagging statement at a concrete
invocation. -/
theorem c4_witness :
    (∀ p ∈ processTopic [((.mk 1 : Ident), "A")] ["T"] "T" [.mk 1] [("A", [false])],
       p.1 = "A" → p.2[pyIndex "T" ["T"]]? = some true) ∧
    (List.Nodup ["T"] → ∀ (i : Nat) (hi : i < (["T"] : List String).length),
       (["T"] : List String)[i] = "T" → pyIndex "T" ["T"] = i) :=
  c4_theorem [(.mk 1, "A")] ["T"] "T" [.mk 1] [("A", [false])] (.mk 1) (.mk 1, "A") 1
    (by decide) (by decide) (by simp [rowsLen]) (by decide)

/-- C9 counterexample: two distinct topics share the title "T"; the first
topic's detail view returns 403, so it contributes nothing — but the
SECOND topic's participant flag is written at `index("T") = 0`, the 403
topic's own column, which therefore does not remain all-false. -/
theorem c9_counterexample :
    assembleMatrix [((.mk 1 : Ident), "A")]
      [(some "b", .mk 10, "T"), (some "c", .mk 11, "T")]
      [⟨403, none⟩, ⟨200, some [some 1]⟩] =
      some ([("A", [true, false])], ["T", "T"]) := by decide

/-- C9 (amended): a topic whose detail view returns 403 is treated as
having zero participants: its processing is a no-op on the matrix, the run
does not abort, and the remaining topics are processed exactly as if the
topic had been skipped; and when no two topics share a title, the 403
topic's own column is all-false in the final matrix. -/
theorem c9_theorem :
    (∀ (E : List Enrollee) (T : List String) (ent : Entry) (v : ViewResp)
       (rest : List (Entry × ViewResp)) (m : PMatrix), v.status = 403 →
       processAll E T ((ent, v) :: rest) m = processAll E T rest m) ∧
    (∀ (enrollees : List Enrollee) (ds : List Entry) (vO : List ViewResp)
       (m : PMatrix) (titles : List String) (j : Nat) (v : ViewResp),
       assembleMatrix enrollees ds vO = some (m, titles) →
       titles.Nodup → vO[j]? = some v → v.status = 403 → j < titles.length →
       colFalse m j) := by
  constructor
  · intro E T ent v rest m h403
    have hv : viewParticipants v = [] := by
      simp [viewParticipants, h403]
    show processAll E T rest (processTopic E T ent.2.2 (viewParticipants v) m) =
      processAll E T rest m
    rw [hv]
    rfl
  · intro enrollees ds vO m titles j v h hnd hvj h403 hj
    obtain ⟨htitles, hle, hm⟩ := assembleMatrix_eq h
    subst htitles
    subst hm
    have hinit : colFalse
        (buildMatrix enrollees ((sortDiscussions ds).map (fun e => e.2.2)).length) j :=
      buildMatrix_colFalse enrollees hj
    have hcond : ∀ pr ∈ (sortDiscussions ds).zip vO,
        pyIndex pr.1.2.2 ((sortDiscussions ds).map (fun e => e.2.2)) ≠ j ∨
          viewParticipants pr.2 = [] := by
      intro pr hpr
      obtain ⟨i, hi⟩ := List.mem_iff_getElem?.mp hpr
      rw [List.getElem?_zip_eq_some] at hi
      obtain ⟨hsi, hvi⟩ := hi
      rcases eq_or_ne i j with rfl | hne
      · right
        rw [hvj] at hvi
        rw [← Option.some.inj hvi]
        simp [viewParticipants, h403]
      · left
        obtain ⟨hilen, hgi⟩ := List.getElem?_eq_some.mp hsi
        have hti : i < ((sortDiscussions ds).map (fun e => e.2.2)).length := by
          simpa using hilen
        have htv : ((sortDiscussions ds).map (fun e => e.2.2))[i] = pr.1.2.2 := by
          simp only [List.getElem_map]
          rw [hgi]
        have hidx := pyIndex_nodup_getElem hnd i hti
        rw [htv] at hidx
        rw [hidx]
        exact hne
    intro p hp
    exact colFalse_processAll _ _ _ _ hcond hinit p ((sortMatrix_mem_iff _ _).mp hp)

/-- C9 witness: a concrete run with distinct titles in which the first
topic's view is 403 — its column stays all-false — plus the no-op step at
a concrete 403 view. -/
theorem c9_witness :
    processAll [] [] [((some "b", .mk 10, "T"), ⟨403, none⟩)] [] =
      processAll [] [] [] [] ∧
    colFalse [("A", [false, true])] 0 :=
  ⟨c9_theorem.1 [] [] (some "b", .mk 10, "T") ⟨403, none⟩ [] [] rfl,
   c9_theorem.2 [(.mk 1, "A")] [(some "b", .mk 10, "T1"), (some "c", .mk 11, "T2")]
     [⟨403, none⟩, ⟨200, some [some 1]⟩] [("A", [false, true])] ["T1", "T2"] 0
     ⟨403, none⟩ (by decide) (by decide) (by decide) rfl (by decide)⟩

/-! Stability of the topic sort, stated through filters: for every key
value, the subsequence of entries carrying that key is unchanged by the
sort. -/

theorem filter_orderedInsert_pos (k : String) (x : Entry) (l : List Entry)
    (hx : sortKey x = k) :
    (l.orderedInsert keyLE x).filter (fun e => decide (sortKey e = k)) =
      x :: l.filter (fun e => decide (sortKey e = k)) := by
  induction l with
  | nil => simp [List.orderedInsert, hx]
  | cons y ys ih =>
    by_cases hle : keyLE x y
    · simp [List.orderedInsert, hle, List.filter_cons, hx]
    · have hy : ¬ sortKey y = k := by
        intro hyk
        apply hle
        show (sortKey x).data ≤ (sortKey y).data
        rw [hx, hyk]
      simp [List.orderedInsert, hle, List.filter_cons, hy, ih]

theorem filter_orderedInsert_neg (k : String) (x : Entry) (l : List Entry)
    (hx : ¬ sortKey x = k) :
    (l.orderedInsert keyLE x).filter (fun e => decide (sortKey e = k)) =
      l.filter (fun e => decide (sortKey e = k)) := by
  induction l with
  | nil => simp [List.orderedInsert, hx]
  | cons y ys ih =>
    by_cases hle : keyLE x y
    · simp [List.orderedInsert, hle, List.filter_cons, hx]
    · simp [List.orderedInsert, hle, List.filter_cons, ih]

theorem sortDiscussions_stable (l : List Entry) (k : String) :
    (sortDiscussions l).filter (fun e => decide (sortKey e = k)) =
      l.filter (fun e => decide (sortKey e = k)) := by
  induction l with
  | nil => rfl
  | cons x xs ih =>
    simp only [sortDiscussions] at ih
    show (List.orderedInsert keyLE x (List.insertionSort keyLE xs)).filter _ = _
    by_cases hx : sortKey x = k
    · rw [filter_orderedInsert_pos k x _ hx]
      show _ = (x :: xs).filter (fun e => decide (sortKey e = k))
      simp [List.filter_cons, hx, ih]
    · rw [filter_orderedInsert_neg k x _ hx]
      show _ = (x :: xs).filter (fun e => decide (sortKey e = k))
      simp [List.filter_cons, hx, ih]

/-- C7 counterexample: the sentinel `'1900-01-01T00:00:00Z'` does not
order a missing-timestamp topic before EVERY topic with a real timestamp:
a topic whose `last_reply_at` is the (perfectly real) timestamp
`'1850-01-01T00:00:00Z'` sorts strictly before the missing-timestamp
topic. -/
theorem c7_counterexample :
    listTopicsGo
      [⟨200, some [⟨some true, some "A", some 1, none⟩,
                   ⟨some true, some "B", some 2, some (some "1850-01-01T00:00:00Z")⟩], ""⟩]
      [] =
      .done [(some sentinel, .mk 1, "A"),
             (some "1850-01-01T00:00:00Z", .mk 2, "B")] ∧
    sortDiscussions
      [(some sentinel, .mk 1, "A"), (some "1850-01-01T00:00:00Z", .mk 2, "B")] =
      [(some "1850-01-01T00:00:00Z", .mk 2, "B"), (some sentinel, .mk 1, "A")] := by
  decide

/-- C7 (amended): the topic list is sorted ascending by the (possibly
sentinel-substituted) `last_reply_at` key; a topic whose key is the
sentinel `'1900-01-01T00:00:00Z'` (in particular, every topic missing its
timestamp) sorts before every topic whose timestamp is strictly greater
than the sentinel — i.e. before all post-1900 timestamps, though not
before pre-1900 ones; the sort is stable (for every key value, the
entries carrying that key keep their original relative order); and
re-running on the same input yields the identical order, the sort being a
pure function of its input. -/
theorem c7_theorem :
    (∀ l : List Entry, (sortDiscussions l).Sorted keyLE) ∧
    (∀ (l : List Entry) (i j : Fin (sortDiscussions l).length),
       sortKey ((sortDiscussions l).get i) = sentinel →
       pyLT sentinel (sortKey ((sortDiscussions l).get j)) → (i : Nat) < j) ∧
    (∀ (l : List Entry) (k : String),
       (sortDiscussions l).filter (fun e => decide (sortKey e = k)) =
         l.filter (fun e => decide (sortKey e = k))) := by
  refine ⟨fun l => List.sorted_insertionSort keyLE l, ?_, sortDiscussions_stable⟩
  intro l i j hsent hlt
  by_contra hij
  push_neg at hij
  have hlt' : sentinel.data < (sortKey ((sortDiscussions l).get j)).data := hlt
  rcases Nat.eq_or_lt_of_le hij with heq | hlt2
  · have hfin : j = i := Fin.ext heq
    rw [hfin, hsent] at hlt
    exact absurd (show sentinel.data < sentinel.data from hlt) (lt_irrefl _)
  · have hrel := (List.sorted_insertionSort keyLE l).rel_get_of_lt
      (show j < i from hlt2)
    have hle2 : (sortKey ((sortDiscussions l).get j)).data ≤
        (sortKey ((sortDiscussions l).get i)).data := hrel
    rw [hsent] at hle2
    exact absurd (lt_of_lt_of_le hlt' hle2) (lt_irrefl _)

/-- C7 witness: the sentinel-first conjunct at a concrete two-topic list
(`1990` timestamp after the sentinel), plus the other conjuncts at the
same input. -/
theorem c7_witness :
    (sortDiscussions [(some sentinel, (.mk 1 : Ident), "A"),
        (some "1990-01-01T00:00:00Z", .mk 2, "B")]).Sorted keyLE ∧
    (0 : Nat) < (1 : Nat) ∧
    (sortDiscussions [(some sentinel, (.mk 1 : Ident), "A"),
        (some "1990-01-01T00:00:00Z", .mk 2, "B")]).filter
        (fun e => decide (sortKey e = sentinel)) =
      ([(some sentinel, (.mk 1 : Ident), "A"),
        (some "1990-01-01T00:00:00Z", .mk 2, "B")] : List Entry).filter
        (fun e => decide (sortKey e = sentinel)) :=
  ⟨c7_theorem.1 _,
   c7_theorem.2.1 [(some sentinel, (.mk 1 : Ident), "A"),
       (some "1990-01-01T00:00:00Z", .mk 2, "B")]
     ⟨0, by decide⟩ ⟨1, by decide⟩ (by decide) (by decide),
   c7_theorem.2.2 _ sentinel⟩
